import Mathlib

/-!
Verification of the gunicorn-k8s-operator charm (`src/charm.py`) against its
natural-language specification.

The charm's reconciliation core is shallowly embedded below:

* Python values stored in relation data / `StoredState` become the inductive
  `Val` (strings, `None`, dicts, lists); Python dicts become association
  lists with first-occurrence lookup (`alGet?`) and in-place update
  (`alSet`), which preserves key uniqueness exactly as Python dicts do.
* `_get_context_from_relations` becomes `buildContext` (with
  `specialCtx`, `processRelation`, `mergeRaw`), returning the context
  together with the list of warnings the charm logs.
* Jinja2 templates are embedded as their parsed form: a list of literal
  pieces and `{{ name.attr... }}` variable pieces.  `renderTemplate`
  models jinja2 rendering with `autoescape=True` and the default
  `Undefined` (missing lookups render as the empty string);
  `findUndeclaredVariables` models `jinja2.meta.find_undeclared_variables`
  (top-level names only).
* `yaml.safe_load` is an external library call; it is modelled as an
  explicit parameter `parse : String → YamlOutcome` whose outcome
  distinguishes `yaml.scanner.ScannerError` (the only exception caught by
  `_validate_yaml`) from any other parse-time exception
  (e.g. `yaml.parser.ParserError`), which the charm does not catch.
* `_make_pod_env`, `_get_gunicorn_pebble_config` and `_configure_workload`
  become `makePodEnv`, `getGunicornPebbleConfig` and `configureWorkload`;
  an uncaught Python exception is `Except.error ()`, and the externally
  visible side effects (unit status, `event.defer()`, ingress update,
  layers added, replan attempted) are collected in `Effects`.
* The relation event handlers `_mongodb_client_relation_changed`,
  `_on_master_changed` and `_on_standby_changed` become pure state
  transformers on the persisted `reldata` store, recording whether they
  invoked the generic reconcile path (`_configure_workload` /
  `_on_config_changed`) and whether they deferred.
* Python's built-in `sorted` on strings is embedded as a stable insertion
  sort over code-point lexicographic order (`pySorted`, `pyStrLe`), and
  `json.dumps(list_of_str, indent=4)` as `jsonDumpsIndent4`.
-/

namespace Gunicorn

/-- A Python value as stored in relation data and `StoredState`:
a string, `None`, a dict, or a list. -/
inductive Val where
  | str (s : String)
  | vnone
  | vdict (d : List (String × Val))
  | vlist (l : List Val)

mutual

/-- Python `==` on stored values. -/
def Val.beq : Val → Val → Bool
  | .str a, .str b => a == b
  | .vnone, .vnone => true
  | .vdict a, .vdict b => Val.beqDict a b
  | .vlist a, .vlist b => Val.beqList a b
  | _, _ => false

/-- Structural equality of dict entry lists (order-sensitive helper). -/
def Val.beqDict : List (String × Val) → List (String × Val) → Bool
  | [], [] => true
  | (k1, v1) :: r1, (k2, v2) :: r2 => k1 == k2 && Val.beq v1 v2 && Val.beqDict r1 r2
  | _, _ => false

/-- Structural equality of value lists. -/
def Val.beqList : List Val → List Val → Bool
  | [], [] => true
  | v1 :: r1, v2 :: r2 => Val.beq v1 v2 && Val.beqList r1 r2
  | _, _ => false

end

/-- A Python dict with string keys, as an association list in insertion
order with unique keys (lookup returns the first occurrence). -/
abbrev Dict := List (String × Val)

/-- Lookup in a Python dict: first entry with the given key. -/
def alGet? {β : Type} : List (String × β) → String → Option β
  | [], _ => none
  | (k0, v) :: rest, k => if k0 = k then some v else alGet? rest k

/-- Python dict assignment `d[k] = v`: replace the value in place if the key
is present (keeping its position), otherwise append the new entry. -/
def alSet {β : Type} : List (String × β) → String → β → List (String × β)
  | [], k, v => [(k, v)]
  | (k0, v0) :: rest, k, v =>
      if k0 = k then (k, v) :: rest else (k0, v0) :: alSet rest k v

/-- Python truthiness of a stored value: empty string, `None`, empty dict and
empty list are falsy. -/
def Val.truthy : Val → Bool
  | .str s => !(s == "")
  | .vnone => false
  | .vdict d => !d.isEmpty
  | .vlist l => !l.isEmpty

/-- Python string `a < b`: code-point lexicographic comparison. -/
def pyStrLt (a b : String) : Bool := decide (a.data < b.data)

/-- Python string `a <= b`. -/
def pyStrLe (a b : String) : Bool := !pyStrLt b a

/-- Insert an element into a list sorted by `le`, before the first element it
compares `le` to (this makes the sort below stable, like Python's). -/
def insertByKey {α : Type} (le : α → α → Bool) (x : α) : List α → List α
  | [] => [x]
  | y :: ys => if le x y then x :: y :: ys else y :: insertByKey le x ys

/-- Stable insertion sort: the embedding of Python's built-in `sorted`. -/
def sortByKey {α : Type} (le : α → α → Bool) (l : List α) : List α :=
  l.foldr (insertByKey le) []

/-- Python `sorted` on a list of strings (ascending code-point order). -/
def pySorted (l : List String) : List String := sortByKey pyStrLe l

theorem Val.beq_refl_all (n : Nat) :
    (∀ v : Val, sizeOf v ≤ n → Val.beq v v = true) ∧
    (∀ d : List (String × Val), sizeOf d ≤ n → Val.beqDict d d = true) ∧
    (∀ l : List Val, sizeOf l ≤ n → Val.beqList l l = true) := by
  induction n with
  | zero =>
    refine ⟨fun v h => ?_, fun d h => ?_, fun l h => ?_⟩
    · cases v <;> simp_all
    · cases d <;> simp_all [Val.beqDict]
    · cases l <;> simp_all [Val.beqList]
  | succ n ih =>
    obtain ⟨ihv, ihd, ihl⟩ := ih
    refine ⟨fun v h => ?_, fun d h => ?_, fun l h => ?_⟩
    · cases v with
      | str s => simp [Val.beq]
      | vnone => simp [Val.beq]
      | vdict d =>
        have : sizeOf d ≤ n := by simp at h; omega
        simpa [Val.beq] using ihd d this
      | vlist l =>
        have : sizeOf l ≤ n := by simp at h; omega
        simpa [Val.beq] using ihl l this
    · cases d with
      | nil => simp [Val.beqDict]
      | cons kv rest =>
        obtain ⟨k, v⟩ := kv
        have h1 : sizeOf v ≤ n := by simp at h; omega
        have h2 : sizeOf rest ≤ n := by simp at h; omega
        simp [Val.beqDict, ihv v h1, ihd rest h2]
    · cases l with
      | nil => simp [Val.beqList]
      | cons v rest =>
        have h1 : sizeOf v ≤ n := by simp at h; omega
        have h2 : sizeOf rest ≤ n := by simp at h; omega
        simp [Val.beqList, ihv v h1, ihl rest h2]

theorem Val.beq_refl (v : Val) : Val.beq v v = true :=
  (Val.beq_refl_all (sizeOf v)).1 v le_rfl

/-- Python `==` on optional values (used for comparing dict lookups). -/
def beqOptVal : Option Val → Option Val → Bool
  | none, none => true
  | some a, some b => Val.beq a b
  | _, _ => false

/-- Python dict equality `d1 == d2`: equality as key-value mappings,
insertion order ignored. -/
def dictMapEq (d1 d2 : Dict) : Bool :=
  (d1.map Prod.fst).all (fun k => beqOptVal (alGet? d1 k) (alGet? d2 k)) &&
  (d2.map Prod.fst).all (fun k => beqOptVal (alGet? d2 k) (alGet? d1 k))

mutual

/-- Python `repr()` of a stored value (as used by `str()` on containers). -/
def pyRepr : Val → String
  | .str s => "\x27" ++ s ++ "\x27"
  | .vnone => "None"
  | .vlist l => "[" ++ String.intercalate ", " (pyReprList l) ++ "]"
  | .vdict d => "\x7b" ++ String.intercalate ", " (pyReprDict d) ++ "\x7d"

/-- The element reprs of a list value. -/
def pyReprList : List Val → List String
  | [] => []
  | v :: rest => pyRepr v :: pyReprList rest

/-- The `key: value` reprs of a dict value. -/
def pyReprDict : List (String × Val) → List String
  | [] => []
  | (k, v) :: rest => ("\x27" ++ k ++ "\x27: " ++ pyRepr v) :: pyReprDict rest

end

/-- Python `str()` of a stored value, as jinja2 stringifies substituted
values: a string is itself, everything else prints as its repr
(`None` prints as `None`). -/
def pyStr : Val → String
  | .str s => s
  | v => pyRepr v

/-- Escape of one character by `markupsafe.escape`, applied by jinja2 to
substituted values because the charm constructs its `Environment` with
`autoescape=True`. -/
def htmlEscapeChar (c : Char) : String :=
  if c = '&' then "&amp;"
  else if c = '<' then "&lt;"
  else if c = '>' then "&gt;"
  else if c = '\x27' then "&#39;"
  else if c = '"' then "&#34;"
  else String.singleton c

/-- HTML-escape a substituted value (jinja2 `autoescape=True`). -/
def htmlEscape (s : String) : String := String.join (s.data.map htmlEscapeChar)

/-- A parsed jinja2 template piece: literal text, or a substitution
referencing a top-level variable plus a chain of attribute accesses
(`\x7b\x7b name.attr1.attr2 \x7d\x7d`).  The charm's templates are
embedded in parsed form; the jinja2 parsing step itself is external. -/
inductive Piece where
  | lit (s : String)
  | var (name : String) (attrs : List String)
deriving Repr, DecidableEq

/-- A jinja2 template, in parsed form.  The empty template corresponds to
the empty `environment` config string. -/
abbrev Template := List Piece

/-- The template context built by `_get_context_from_relations`: namespace
(relation name) to flat dict of fields. -/
abbrev Ctx := List (String × Dict)

/-- Follow a chain of jinja2 attribute accesses through dict values;
`none` is jinja2's `Undefined`. -/
def walkAttrs : Val → List String → Option Val
  | v, [] => some v
  | .vdict d, a :: rest =>
      match alGet? d a with
      | some v => walkAttrs v rest
      | none => none
  | _, _ :: _ => none

/-- Render one `\x7b\x7b name.attrs \x7d\x7d` substitution: look the path up
in the context; jinja2's default `Undefined` renders as the empty string,
and defined values are stringified then HTML-escaped (autoescape). -/
def renderVar (ctx : Ctx) (name : String) (attrs : List String) : String :=
  match alGet? ctx name with
  | none => ""
  | some d =>
      match walkAttrs (.vdict d) attrs with
      | none => ""
      | some v => htmlEscape (pyStr v)

/-- Embedding of `_render_template` (jinja2 `render` on a `BaseLoader`
environment with `autoescape=True`). -/
def renderTemplate (t : Template) (ctx : Ctx) : String :=
  String.join (t.map (fun p =>
    match p with
    | .lit s => s
    | .var n attrs => renderVar ctx n attrs))

/-- Deduplicate, keeping first occurrences (set of names in template
order; the iteration order is irrelevant downstream, where the names are
sorted or used as a set). -/
def dedupKeepFirstGo (seen : List String) : List String → List String
  | [] => []
  | x :: rest =>
      if seen.contains x then dedupKeepFirstGo seen rest
      else x :: dedupKeepFirstGo (x :: seen) rest

/-- Deduplicate a list of names, keeping first occurrences. -/
def dedupKeepFirst (l : List String) : List String := dedupKeepFirstGo [] l

/-- Embedding of `jinja2.meta.find_undeclared_variables`: the set of
top-level variable names referenced by the template.  Attribute chains do
not contribute deeper names: `\x7b\x7b pg.db_uri \x7d\x7d` yields `pg`. -/
def findUndeclaredVariables (t : Template) : List String :=
  dedupKeepFirst (t.filterMap (fun p =>
    match p with
    | .var n _ => some n
    | .lit _ => none))

/-- The check `not ctx.get(req_var)` in `_make_pod_env`: a referenced
top-level variable is missing when the context has no entry for it or the
entry is an empty (falsy) dict.  Only the top-level name is consulted. -/
def truthyCtxGet (ctx : Ctx) (name : String) : Bool :=
  match alGet? ctx name with
  | none => false
  | some d => !d.isEmpty

/-- The `missing_vars` set computed by `_make_pod_env`. -/
def missingVariables (t : Template) (ctx : Ctx) : List String :=
  (findUndeclaredVariables t).filter (fun v => !truthyCtxGet ctx v)

/-- Embedding of `_flatten_dict` / `_flatten_dict_gen`: flatten nested
dicts into dotted-path keys. -/
def flattenDict : List (String × Val) → String → String → List (String × Val)
  | [], _, _ => []
  | (k, v) :: rest, parent, sep =>
      let newKey := if parent == "" then k else parent ++ sep ++ k
      (match v with
       | .vdict d => flattenDict d newKey sep
       | v => [(newKey, v)]) ++ flattenDict rest parent sep

/-- View a two-level context as a dict of dict values (the shape
`_flatten_dict` receives from `_get_context_from_relations`). -/
def ctxToDict (c : Ctx) : Dict := c.map (fun nd => (nd.1, .vdict nd.2))

/-- Lowercase hex digit for a value below 16 (digits, then letters from
`a`, by code point). -/
def hexDigit (n : Nat) : Char :=
  if n < 10 then Char.ofNat (48 + n) else Char.ofNat (87 + n)

/-- Four-digit lowercase hex, as in Python json `\u` escapes. -/
def toHex4 (n : Nat) : String :=
  String.mk [hexDigit (n / 4096 % 16), hexDigit (n / 256 % 16),
             hexDigit (n / 16 % 16), hexDigit (n % 16)]

/-- Escape of one character by `json.dumps` (default `ensure_ascii=True`):
everything outside printable ASCII is `\u`-escaped (with surrogate pairs
beyond the BMP), plus the usual shorthand escapes. -/
def jsonEscapeChar (c : Char) : String :=
  if c = '"' then "\\\""
  else if c = '\\' then "\\\\"
  else if c = '\n' then "\\n"
  else if c = '\t' then "\\t"
  else if c = '\r' then "\\r"
  else if c = '\x08' then "\\b"
  else if c = '\x0c' then "\\f"
  else if c.toNat < 0x20 || c.toNat > 0x7e then
    if c.toNat < 0x10000 then "\\u" ++ toHex4 c.toNat
    else
      "\\u" ++ toHex4 (0xd800 + (c.toNat - 0x10000) / 0x400) ++
        "\\u" ++ toHex4 (0xdc00 + (c.toNat - 0x10000) % 0x400)
  else String.singleton c

/-- JSON string-escape. -/
def jsonEscape (s : String) : String := String.join (s.data.map jsonEscapeChar)

/-- Embedding of `json.dumps(list_of_strings, indent=4)`. -/
def jsonDumpsIndent4 (l : List String) : String :=
  match l with
  | [] => "[]"
  | _ =>
      "[\n    " ++
        String.intercalate ",\n    " (l.map (fun s => "\"" ++ jsonEscape s ++ "\"")) ++
        "\n]"

/-- One observed relation instance: its id and, per remote unit
(by unit name), the flat key-value bag it publishes. -/
structure RelInstance where
  id : Nat
  units : List (String × List (String × String))
deriving Repr, DecidableEq

/-- A warning logged by `_get_context_from_relations`. -/
inductive Warning where
  | multipleRelations (relName : String) (relId : Nat)
  | multipleUnits (relName : String) (relId : Nat) (unitName : String)
deriving Repr, DecidableEq

/-- First loop of `_get_context_from_relations`: seed the context with the
non-empty entries of the persisted special-cased store `_stored.reldata`. -/
def specialCtx (reldata : List (String × Dict)) : Ctx :=
  reldata.foldl (fun c nd => if nd.2.isEmpty then c else alSet c nd.1 nd.2) []

/-- Embedding of `sorted(rel.units, key=lambda x: x.name)`. -/
def sortUnitsByName (units : List (String × List (String × String))) :
    List (String × List (String × String)) :=
  sortByKey (fun u v => pyStrLe u.1 v.1) units

/-- The inner loop `for key, value in rel.data[unit].items():
ctx[rel.name][key] = value`, starting from the namespace dict already in
the context (or `\x7b\x7d` when absent). -/
def mergeRaw (base : Dict) (raw : List (String × String)) : Dict :=
  raw.foldl (fun d kv => alSet d kv.1 (.str kv.2)) base

/-- One iteration of the second loop of `_get_context_from_relations`, for
one relation name: use only the first instance (warning when several),
select the unit with the smallest name via `sorted(...)[0]` (warning when
several units), and merge its data into the relation-name namespace. -/
def processRelation (st : Ctx × List Warning) (entry : String × List RelInstance) :
    Ctx × List Warning :=
  match entry.2 with
  | [] => st
  | rel :: rest =>
    let ws1 := if rest.isEmpty then st.2 else st.2 ++ [.multipleRelations entry.1 rel.id]
    match sortUnitsByName rel.units with
    | [] => (st.1, ws1)
    | u :: urest =>
      let ws2 := if urest.isEmpty then ws1 else ws1 ++ [.multipleUnits entry.1 rel.id u.1]
      (alSet st.1 entry.1 (mergeRaw ((alGet? st.1 entry.1).getD []) u.2), ws2)

/-- Embedding of `_get_context_from_relations`: the built context together
with the warnings logged while building it. -/
def buildContext (reldata : List (String × Dict))
    (relations : List (String × List RelInstance)) : Ctx × List Warning :=
  relations.foldl processRelation (specialCtx reldata, [])

/-- Outcome of `yaml.safe_load` on a string.  The charm only catches
`yaml.scanner.ScannerError`; any other parse-time exception
(e.g. `yaml.parser.ParserError` on input such as `a: [`) is `otherError`
and propagates out of `_validate_yaml` uncaught. -/
inductive YamlOutcome where
  | scannerError
  | otherError
  | ok (v : Val)

/-- Whether a parsed value is a Python dict (`isinstance(parsed, dict)`). -/
def Val.isDict : Val → Bool
  | .vdict _ => true
  | _ => false

/-- Embedding of `_validate_yaml(content, dict)` (the only instantiation the
charm uses).  `Except.error` is an uncaught exception; `.ok (some true)` is
the returned error flag `True`; `.ok none` is success. -/
def validateYaml (parse : String → YamlOutcome) (content : String) :
    Except Unit (Option Bool) :=
  match parse content with
  | .scannerError => .ok (some true)
  | .otherError => .error ()
  | .ok v => if v.isDict then .ok none else .ok (some true)

/-- Result of `_make_pod_env`: the env dict, the malformed flag `True`, or
the set of missing variable names. -/
inductive PodEnvResult where
  | env (d : Dict)
  | malformed
  | missing (vars : List String)

/-- Embedding of `_make_pod_env`.  The context argument is the one built by
`_get_context_from_relations`.  The final catch-all arm is unreachable:
`validateYaml` returns `.ok none` exactly when `parse` yields a dict. -/
def makePodEnv (parse : String → YamlOutcome) (env : Template) (ctx : Ctx) :
    Except Unit PodEnvResult :=
  if env.isEmpty then .ok (.env [])
  else
    let missingVars := missingVariables env ctx
    if !missingVars.isEmpty then .ok (.missing missingVars)
    else
      let rendered := renderTemplate env ctx
      match validateYaml parse rendered with
      | .error e => .error e
      | .ok (some _) => .ok .malformed
      | .ok none =>
          match parse rendered with
          | .ok (.vdict d) => .ok (.env d)
          | _ => .ok .malformed

/-- The Juju config options the reconcile path reads. -/
structure Config where
  external_hostname : String
  external_port : Nat
  startup_command : String
  environment : Template
deriving Repr, DecidableEq

/-- Embedding of `_get_external_hostname`: empty config falls back to the
application name. -/
def getExternalHostname (cfg : Config) (appName : String) : String :=
  if cfg.external_hostname = "" then appName else cfg.external_hostname

/-- Unit status values the charm sets. -/
inductive Status where
  | active
  | blocked (msg : String)
  | maintenance (msg : String)
deriving Repr, DecidableEq

/-- The data of the gunicorn pebble layer that varies with inputs: start
command, readiness-check URL, and the optional environment block (absent
when the resolved env dict is empty/falsy). -/
structure GunicornLayer where
  command : String
  checkUrl : String
  environment : Option Dict

/-- Result of `_get_gunicorn_pebble_config`: the layer (`none` when the
empty dict `\x7b\x7d` was returned), the status set, and whether
`event.defer()` was called. -/
structure PebbleStep where
  layer : Option GunicornLayer
  status : Option Status
  deferred : Bool

/-- The Blocked message for missing template variables:
`"Waiting for " + ", ".join(sorted(missing)) + " relation(s)"`. -/
def waitingMessage (vars : List String) : String :=
  "Waiting for " ++ String.intercalate ", " (pySorted vars) ++ " relation(s)"

/-- Embedding of `_get_gunicorn_pebble_config`. -/
def getGunicornPebbleConfig (parse : String → YamlOutcome) (cfg : Config) (ctx : Ctx) :
    Except Unit PebbleStep :=
  match makePodEnv parse cfg.environment ctx with
  | .error e => .error e
  | .ok .malformed => .ok ⟨none, some (.blocked "Error getting pod_env_config"), false⟩
  | .ok (.missing vars) => .ok ⟨none, some (.blocked (waitingMessage vars)), true⟩
  | .ok (.env d) =>
      .ok ⟨some ⟨cfg.startup_command,
                 "http://127.0.0.1:" ++ toString cfg.external_port,
                 if d.isEmpty then none else some d⟩,
           none, false⟩

/-- Externally visible effects of one `_configure_workload` run: the final
unit status set (if any), whether the event was deferred, the
hostname/port pushed to the ingress relation (if reached), the layers
added to the container, and whether `replan_services` was attempted. -/
structure Effects where
  status : Option Status
  deferred : Bool
  ingressUpdated : Option (String × Nat)
  layersAdded : List String
  replanAttempted : Bool
deriving Repr, DecidableEq

/-- Everything `_configure_workload` reads: app name, config, the persisted
special-cased store, the raw relation data, whether pebble is reachable
(`can_connect`), and whether `replan_services` raises `ChangeError`. -/
structure ReconcileInputs where
  appName : String
  cfg : Config
  reldata : List (String × Dict)
  relations : List (String × List RelInstance)
  canConnect : Bool
  replanFails : Bool

/-- Embedding of `_configure_workload` (the generic reconcile path invoked
by `config-changed`, `pebble-ready` and the relation handlers).
`Except.error ()` models an uncaught Python exception escaping the
handler. -/
def configureWorkload (parse : String → YamlOutcome) (inp : ReconcileInputs) :
    Except Unit Effects :=
  let ctx := (buildContext inp.reldata inp.relations).1
  match getGunicornPebbleConfig parse inp.cfg ctx with
  | .error e => .error e
  | .ok step =>
      match step.layer with
      | none => .ok ⟨step.status, step.deferred, none, [], false⟩
      | some _ =>
          let ingress := (getExternalHostname inp.cfg inp.appName, inp.cfg.external_port)
          if !inp.canConnect then
            .ok ⟨some (.maintenance "waiting for pebble to start"), step.deferred,
                 some ingress, [], false⟩
          else if inp.replanFails then
            .ok ⟨some (.blocked
                   "Charm\x27s startup command may be wrong, please check the config"),
                 step.deferred, some ingress,
                 ["gunicorn", "statsd-prometheus-exporter"], true⟩
          else
            .ok ⟨some .active, step.deferred, some ingress,
                 ["gunicorn", "statsd-prometheus-exporter"], true⟩

/-- Result of a relation event handler: the new persisted store, whether it
invoked the generic reconcile path (`_configure_workload` via
`_on_config_changed`), and whether it deferred the event.  A handler that
does not reconcile sets no status and submits no layer. -/
structure HandlerResult where
  reldata : List (String × Dict)
  reconciled : Bool
  deferred : Bool

/-- Python `d.update(other)`. -/
def dictUpdate (d : Dict) (new : Dict) : Dict :=
  new.foldl (fun acc kv => alSet acc kv.1 kv.2) d

/-- Embedding of `_mongodb_client_relation_changed`: ensure the `mongodb`
namespace exists, snapshot it, update it with the fetched relation data,
and reconcile only when the snapshot and the updated dict differ
(Python `!=` on dicts, i.e. mapping inequality). -/
def mongodbClientRelationChanged (reldata : List (String × Dict)) (fetched : Dict) :
    HandlerResult :=
  let rd0 := if (alGet? reldata "mongodb").isSome then reldata
             else alSet reldata "mongodb" []
  let initial := (alGet? rd0 "mongodb").getD []
  let updated := dictUpdate initial fetched
  ⟨alSet rd0 "mongodb" updated, !dictMapEq initial updated, false⟩

/-- The payload of a pgsql `master` event: connection string and URI. -/
structure MasterInfo where
  conn_str : String
  uri : String
deriving Repr, DecidableEq

/-- Embedding of `_on_master_changed`.  The `pg` namespace exists from
`_init_postgresql_relation` (modelled by defaulting to the empty dict).
Note the handler reconciles whenever `event.master` is set and the
database matches, with no change-detection guard. -/
def onMasterChanged (appName : String) (reldata : List (String × Dict))
    (database : Option String) (master : Option MasterInfo) : HandlerResult :=
  if database ≠ some appName then ⟨reldata, false, false⟩
  else
    let pg0 := (alGet? reldata "pg").getD []
    let pg1 := alSet pg0 "conn_str" (match master with
      | none => .vnone
      | some m => .str m.conn_str)
    let pg2 := alSet pg1 "db_uri" (match master with
      | none => .vnone
      | some m => .str m.uri)
    let rd := alSet reldata "pg" pg2
    match master with
    | none => ⟨rd, false, false⟩
    | some _ => ⟨rd, true, false⟩

/-- Embedding of `_on_standby_changed`: write the list of standby URIs into
the persisted `pg` namespace and return, with no further effect. -/
def onStandbyChanged (appName : String) (reldata : List (String × Dict))
    (database : Option String) (standbys : List String) : HandlerResult :=
  if database ≠ some appName then ⟨reldata, false, false⟩
  else
    let pg0 := (alGet? reldata "pg").getD []
    ⟨alSet reldata "pg" (alSet pg0 "ro_uris" (.vlist (standbys.map .str))), false, false⟩

/-- Embedding of `_on_show_environment_context_action`: flatten the built
context to dotted paths, sort the keys, and serialize them with
`json.dumps(..., indent=4)`. -/
def showEnvironmentContextAction (reldata : List (String × Dict))
    (relations : List (String × List RelInstance)) : String :=
  jsonDumpsIndent4 (pySorted
    ((flattenDict (ctxToDict (buildContext reldata relations).1) "" ".").map Prod.fst))

/-- Lookup of the last occurrence of a key (the effective binding after a
left-to-right sequence of assignments with possibly repeated keys). -/
def lookupLast : List (String × Val) → String → Option Val
  | [], _ => none
  | (k0, v0) :: rest, k =>
      match lookupLast rest k with
      | some v => some v
      | none => if k0 = k then some v0 else none

theorem alGet?_alSet {β : Type} (d : List (String × β)) (k0 k : String) (v : β) :
    alGet? (alSet d k0 v) k = if k0 = k then some v else alGet? d k := by
  induction d with
  | nil => simp [alSet, alGet?]
  | cons hd tl ih =>
    obtain ⟨k1, v1⟩ := hd
    by_cases h1 : k1 = k0
    · subst h1
      by_cases h2 : k1 = k <;> simp [alSet, alGet?, h2]
    · simp only [alSet, if_neg h1, alGet?]
      by_cases h2 : k1 = k
      · subst h2
        have : ¬ k0 = k1 := fun h => h1 h.symm
        simp [this]
      · simp [h2, ih]

theorem alSet_ne_nil {β : Type} (d : List (String × β)) (k : String) (v : β) :
    alSet d k v ≠ [] := by
  cases d with
  | nil => simp [alSet]
  | cons hd tl =>
    obtain ⟨k1, v1⟩ := hd
    by_cases h : k1 = k <;> simp [alSet, h]

theorem mem_map_fst_alSet {β : Type} (d : List (String × β)) (k a : String) (v : β) :
    a ∈ (alSet d k v).map Prod.fst ↔ a = k ∨ a ∈ d.map Prod.fst := by
  induction d with
  | nil => simp [alSet]
  | cons hd tl ih =>
    obtain ⟨k1, v1⟩ := hd
    by_cases h : k1 = k
    · subst h
      simp [alSet]
    · simp [alSet, h, ih]
      tauto

theorem nodup_map_fst_alSet {β : Type} (d : List (String × β)) (k : String) (v : β)
    (h : (d.map Prod.fst).Nodup) : ((alSet d k v).map Prod.fst).Nodup := by
  induction d with
  | nil => simp [alSet]
  | cons hd tl ih =>
    obtain ⟨k1, v1⟩ := hd
    simp only [List.map_cons, List.nodup_cons] at h
    by_cases hk : k1 = k
    · subst hk
      simpa [alSet] using h
    · simp only [alSet, if_neg hk, List.map_cons, List.nodup_cons]
      refine ⟨fun hmem => ?_, ih h.2⟩
      rcases (mem_map_fst_alSet tl k k1 v).mp hmem with h1 | h1
      · exact hk h1
      · exact h.1 h1

theorem alGet?_mergeRaw_not_mem (s : Dict) (raw : List (String × String)) (k : String)
    (h : k ∉ raw.map Prod.fst) :
    alGet? (mergeRaw s raw) k = alGet? s k := by
  induction raw generalizing s with
  | nil => rfl
  | cons hd tl ih =>
    obtain ⟨k0, v0⟩ := hd
    simp only [List.map_cons, List.mem_cons, not_or] at h
    rw [show mergeRaw s ((k0, v0) :: tl) = mergeRaw (alSet s k0 (.str v0)) tl from rfl]
    rw [ih _ h.2, alGet?_alSet]
    have : ¬ k0 = k := fun hk => h.1 hk.symm
    simp [this]

theorem alGet?_mergeRaw (s : Dict) (raw : List (String × String)) (k : String)
    (hnd : (raw.map Prod.fst).Nodup) :
    alGet? (mergeRaw s raw) k =
      match raw.lookup k with
      | some v => some (.str v)
      | none => alGet? s k := by
  induction raw generalizing s with
  | nil => rfl
  | cons hd tl ih =>
    obtain ⟨k0, v0⟩ := hd
    simp only [List.map_cons, List.nodup_cons] at hnd
    rw [show mergeRaw s ((k0, v0) :: tl) = mergeRaw (alSet s k0 (.str v0)) tl from rfl]
    by_cases hk : k0 = k
    · subst hk
      rw [alGet?_mergeRaw_not_mem _ _ _ hnd.1, alGet?_alSet]
      simp [List.lookup]
    · rw [ih _ hnd.2]
      have hbeq : (k == k0) = false := by
        simp [Ne.symm hk]
      cases h : tl.lookup k with
      | some v => simp [List.lookup, hbeq, h]
      | none => simp [List.lookup, hbeq, h, alGet?_alSet, hk]

theorem lookup_isSome_iff_mem_fst (raw : List (String × String)) (k : String) :
    (raw.lookup k).isSome = true ↔ k ∈ raw.map Prod.fst := by
  induction raw with
  | nil => simp
  | cons hd tl ih =>
    obtain ⟨k0, v0⟩ := hd
    by_cases hk : k = k0
    · subst hk
      simp [List.lookup]
    · have hbeq : (k == k0) = false := by simp [hk]
      simp [List.lookup, hbeq, ih, hk]

theorem alGet?_dictUpdate (d f : Dict) (k : String) :
    alGet? (dictUpdate d f) k =
      match lookupLast f k with
      | some v => some v
      | none => alGet? d k := by
  induction f generalizing d with
  | nil => rfl
  | cons hd tl ih =>
    obtain ⟨k0, v0⟩ := hd
    rw [show dictUpdate d ((k0, v0) :: tl) = dictUpdate (alSet d k0 v0) tl from rfl]
    rw [ih]
    cases h : lookupLast tl k with
    | some v => simp [lookupLast, h]
    | none =>
      by_cases hk : k0 = k <;> simp [lookupLast, h, alGet?_alSet, hk]

theorem beqOptVal_refl (o : Option Val) : beqOptVal o o = true := by
  cases o <;> simp [beqOptVal, Val.beq_refl]

theorem dictMapEq_of_getEq (d1 d2 : Dict) (h : ∀ k, alGet? d1 k = alGet? d2 k) :
    dictMapEq d1 d2 = true := by
  simp only [dictMapEq, Bool.and_eq_true, List.all_eq_true]
  constructor
  · intro k _
    rw [h k]
    exact beqOptVal_refl _
  · intro k _
    rw [h k]
    exact beqOptVal_refl _

theorem mem_insertByKey {α : Type} (le : α → α → Bool) (x a : α) (l : List α) :
    a ∈ insertByKey le x l ↔ a = x ∨ a ∈ l := by
  induction l with
  | nil => simp [insertByKey]
  | cons y ys ih =>
    cases h : le x y with
    | true =>
      simp [insertByKey, h]
    | false =>
      simp [insertByKey, h, ih]
      tauto

theorem pairwise_insertByKey {α : Type} (le : α → α → Bool)
    (htrans : ∀ a b c, le a b = true → le b c = true → le a c = true)
    (htotal : ∀ a b, le a b = true ∨ le b a = true) (x : α) (l : List α)
    (h : l.Pairwise (fun a b => le a b = true)) :
    (insertByKey le x l).Pairwise (fun a b => le a b = true) := by
  induction l with
  | nil => simp [insertByKey]
  | cons y ys ih =>
    rcases List.pairwise_cons.mp h with ⟨hy, hys⟩
    cases hxy : le x y with
    | true =>
      simp only [insertByKey, hxy, if_true]
      refine List.pairwise_cons.mpr ⟨?_, h⟩
      intro b hb
      rcases List.mem_cons.mp hb with rfl | hb
      · exact hxy
      · exact htrans x y b hxy (hy b hb)
    | false =>
      simp only [insertByKey, hxy, Bool.false_eq_true, if_false]
      refine List.pairwise_cons.mpr ⟨?_, ih hys⟩
      intro b hb
      rcases (mem_insertByKey le x b ys).mp hb with rfl | hb
      · rcases htotal b y with hby | hyb
        · rw [hxy] at hby
          exact absurd hby (by simp)
        · exact hyb
      · exact hy b hb

theorem mem_sortByKey {α : Type} (le : α → α → Bool) (a : α) (l : List α) :
    a ∈ sortByKey le l ↔ a ∈ l := by
  induction l with
  | nil => simp [sortByKey]
  | cons x xs ih =>
    rw [show sortByKey le (x :: xs) = insertByKey le x (sortByKey le xs) from rfl]
    rw [mem_insertByKey, ih]
    simp

theorem pairwise_sortByKey {α : Type} (le : α → α → Bool)
    (htrans : ∀ a b c, le a b = true → le b c = true → le a c = true)
    (htotal : ∀ a b, le a b = true ∨ le b a = true) (l : List α) :
    (sortByKey le l).Pairwise (fun a b => le a b = true) := by
  induction l with
  | nil => simp [sortByKey]
  | cons x xs ih =>
    rw [show sortByKey le (x :: xs) = insertByKey le x (sortByKey le xs) from rfl]
    exact pairwise_insertByKey le htrans htotal x _ ih

theorem pyStrLt_iff (a b : String) : pyStrLt a b = true ↔ a < b := by
  rw [pyStrLt, decide_eq_true_iff]
  exact String.lt_iff_toList_lt.symm

theorem pyStrLe_iff (a b : String) : pyStrLe a b = true ↔ a ≤ b := by
  unfold pyStrLe
  cases hb : pyStrLt b a with
  | true =>
    have hba : b < a := (pyStrLt_iff b a).mp hb
    simp [not_le.mpr hba]
  | false =>
    have hnba : ¬ b < a := by
      intro hc
      rw [(pyStrLt_iff b a).mpr hc] at hb
      exact absurd hb (by simp)
    simp [le_of_not_lt hnba]

theorem pyStrLe_trans (a b c : String) (h1 : pyStrLe a b = true) (h2 : pyStrLe b c = true) :
    pyStrLe a c = true :=
  (pyStrLe_iff a c).mpr (le_trans ((pyStrLe_iff a b).mp h1) ((pyStrLe_iff b c).mp h2))

theorem pyStrLe_total (a b : String) : pyStrLe a b = true ∨ pyStrLe b a = true := by
  rcases le_total a b with h | h
  · exact Or.inl ((pyStrLe_iff a b).mpr h)
  · exact Or.inr ((pyStrLe_iff b a).mpr h)

theorem sorted_pySorted (l : List String) : (pySorted l).Sorted (· ≤ ·) := by
  have hp := pairwise_sortByKey pyStrLe pyStrLe_trans pyStrLe_total l
  exact hp.imp (fun h => (pyStrLe_iff _ _).mp h)

theorem mem_pySorted (a : String) (l : List String) : a ∈ pySorted l ↔ a ∈ l :=
  mem_sortByKey pyStrLe a l

theorem sortUnitsByName_head_min (units : List (String × List (String × String)))
    (u : String × List (String × String)) (urest : List (String × List (String × String)))
    (h : sortUnitsByName units = u :: urest) :
    u ∈ units ∧ ∀ w ∈ units, u.1 ≤ w.1 := by
  have hle : ∀ a b c : String × List (String × String),
      pyStrLe a.1 b.1 = true → pyStrLe b.1 c.1 = true → pyStrLe a.1 c.1 = true :=
    fun a b c h1 h2 => pyStrLe_trans a.1 b.1 c.1 h1 h2
  have htot : ∀ a b : String × List (String × String),
      pyStrLe a.1 b.1 = true ∨ pyStrLe b.1 a.1 = true :=
    fun a b => pyStrLe_total a.1 b.1
  have hp := pairwise_sortByKey (fun a b => pyStrLe a.1 b.1) hle htot units
  rw [show sortByKey (fun a b => pyStrLe a.1 b.1) units = sortUnitsByName units from rfl, h] at hp
  rcases List.pairwise_cons.mp hp with ⟨hmin, _⟩
  have hmemu : u ∈ units := by
    have : u ∈ sortUnitsByName units := by
      rw [h]
      exact List.mem_cons_self u urest
    exact (mem_sortByKey _ u units).mp this
  refine ⟨hmemu, fun w hw => ?_⟩
  have hw2 : w ∈ u :: urest := by
    rw [← h]
    exact (mem_sortByKey _ w units).mpr hw
  rcases List.mem_cons.mp hw2 with rfl | hw3
  · exact le_refl _
  · exact (pyStrLe_iff u.1 w.1).mp (hmin w hw3)

theorem foldl_specialStep_not_mem (rd : List (String × Dict)) (c : Ctx) (k : String)
    (h : k ∉ rd.map Prod.fst) :
    alGet? (rd.foldl (fun c nd => if nd.2.isEmpty then c else alSet c nd.1 nd.2) c) k
      = alGet? c k := by
  induction rd generalizing c with
  | nil => rfl
  | cons hd tl ih =>
    obtain ⟨k0, d0⟩ := hd
    simp only [List.map_cons, List.mem_cons, not_or] at h
    rw [List.foldl_cons, ih _ h.2]
    by_cases he : d0.isEmpty <;> simp only [he]
    · simp
    · simp only [Bool.false_eq_true, if_false]
      rw [alGet?_alSet]
      have : ¬ k0 = k := fun hk => h.1 hk.symm
      simp [this]

theorem foldl_specialStep_mem (rd : List (String × Dict)) (c : Ctx) (k : String) (d : Dict)
    (hnd : (rd.map Prod.fst).Nodup) (hget : alGet? rd k = some d) :
    alGet? (rd.foldl (fun c nd => if nd.2.isEmpty then c else alSet c nd.1 nd.2) c) k
      = if d.isEmpty then alGet? c k else some d := by
  induction rd generalizing c with
  | nil => simp [alGet?] at hget
  | cons hd tl ih =>
    obtain ⟨k0, d0⟩ := hd
    simp only [List.map_cons, List.nodup_cons] at hnd
    by_cases hk : k0 = k
    · subst hk
      simp only [alGet?, if_true, Option.some.injEq] at hget
      subst hget
      rw [List.foldl_cons, foldl_specialStep_not_mem _ _ _ hnd.1]
      by_cases he : d0.isEmpty <;> simp [he, alGet?_alSet]
    · simp only [alGet?, if_neg hk] at hget
      rw [List.foldl_cons, ih _ hnd.2 hget]
      by_cases he : d0.isEmpty <;> by_cases hde : d.isEmpty <;>
        simp [he, hde, alGet?_alSet, hk]

theorem specialCtx_get_of_ne_nil (rd : List (String × Dict)) (k : String) (d : Dict)
    (hnd : (rd.map Prod.fst).Nodup) (hget : alGet? rd k = some d) (hne : d ≠ []) :
    alGet? (specialCtx rd) k = some d := by
  unfold specialCtx
  rw [foldl_specialStep_mem rd [] k d hnd hget]
  cases d with
  | nil => exact absurd rfl hne
  | cons hd tl => simp

theorem processRelation_mono (st : Ctx × List Warning) (e : String × List RelInstance)
    (k : String) (h : (alGet? st.1 k).isSome = true) :
    (alGet? (processRelation st e).1 k).isSome = true := by
  obtain ⟨name, insts⟩ := e
  cases insts with
  | nil => exact h
  | cons rel rest =>
    unfold processRelation
    simp only
    cases hu : sortUnitsByName rel.units with
    | nil => exact h
    | cons u urest =>
      simp only
      rw [alGet?_alSet]
      by_cases hk : name = k <;> simp [hk, h]

theorem foldl_processRelation_mono (rels : List (String × List RelInstance))
    (st : Ctx × List Warning) (k : String) (h : (alGet? st.1 k).isSome = true) :
    (alGet? (rels.foldl processRelation st).1 k).isSome = true := by
  induction rels generalizing st with
  | nil => exact h
  | cons e tl ih => exact ih _ (processRelation_mono st e k h)

theorem list_isEmpty_false_of_ne_nil {α : Type} (l : List α) (h : l ≠ []) :
    l.isEmpty = false := by
  cases l with
  | nil => exact absurd rfl h
  | cons hd tl => rfl

theorem makePodEnv_missing_eq (parse : String → YamlOutcome) (env : Template) (ctx : Ctx)
    (hne : env ≠ []) (hm : missingVariables env ctx ≠ []) :
    makePodEnv parse env ctx = .ok (.missing (missingVariables env ctx)) := by
  simp [makePodEnv, list_isEmpty_false_of_ne_nil env hne,
        list_isEmpty_false_of_ne_nil _ hm]

theorem makePodEnv_malformed_eq (parse : String → YamlOutcome) (env : Template) (ctx : Ctx)
    (hne : env ≠ []) (hm : missingVariables env ctx = [])
    (hp : parse (renderTemplate env ctx) = .scannerError ∨
          ∃ v, parse (renderTemplate env ctx) = .ok v ∧ v.isDict = false) :
    makePodEnv parse env ctx = .ok .malformed := by
  unfold makePodEnv
  rw [list_isEmpty_false_of_ne_nil env hne]
  simp only [hm]
  rcases hp with hp | ⟨v, hp, hv⟩
  · simp [validateYaml, hp]
  · simp [validateYaml, hp, hv]

theorem makePodEnv_missing_inv (parse : String → YamlOutcome) (env : Template) (ctx : Ctx)
    (vars : List String) (h : makePodEnv parse env ctx = .ok (.missing vars)) :
    vars = missingVariables env ctx ∧ vars ≠ [] := by
  unfold makePodEnv at h
  by_cases he : env.isEmpty
  · rw [he] at h
    simp at h
  · rw [list_isEmpty_false_of_ne_nil env (by simpa using he)] at h
    by_cases hm : (missingVariables env ctx).isEmpty
    · simp only [hm, Bool.not_true, Bool.false_eq_true, if_false] at h
      cases hv : validateYaml parse (renderTemplate env ctx) with
      | error e => rw [hv] at h; simp at h
      | ok o =>
        rw [hv] at h
        cases o with
        | some b => simp at h
        | none =>
          simp only at h
          cases hp : parse (renderTemplate env ctx) with
          | scannerError => rw [hp] at h; simp at h
          | otherError => rw [hp] at h; simp at h
          | ok v =>
            rw [hp] at h
            cases v <;> simp at h
    · simp only [hm, Bool.not_false, if_true, Except.ok.injEq] at h
      have hv : vars = missingVariables env ctx := by
        cases h
        rfl
      refine ⟨hv, ?_⟩
      rw [hv]
      intro hnil
      rw [hnil] at hm
      simp at hm

theorem pebbleStep_deferred_inv (parse : String → YamlOutcome) (cfg : Config) (ctx : Ctx)
    (step : PebbleStep) (h : getGunicornPebbleConfig parse cfg ctx = .ok step)
    (hd : step.deferred = true) :
    ∃ vars, vars ≠ [] ∧ makePodEnv parse cfg.environment ctx = .ok (.missing vars) := by
  unfold getGunicornPebbleConfig at h
  cases hm : makePodEnv parse cfg.environment ctx with
  | error e => rw [hm] at h; simp at h
  | ok r =>
    rw [hm] at h
    cases r with
    | env d =>
      simp only [Except.ok.injEq] at h
      rw [← h] at hd
      simp at hd
    | malformed =>
      simp only [Except.ok.injEq] at h
      rw [← h] at hd
      simp at hd
    | missing vars =>
      rcases makePodEnv_missing_inv parse cfg.environment ctx vars hm with ⟨_, hnn⟩
      exact ⟨vars, hnn, rfl⟩

theorem configureWorkload_deferred_inv (parse : String → YamlOutcome)
    (inp : ReconcileInputs) (e : Effects) (h : configureWorkload parse inp = .ok e)
    (hd : e.deferred = true) :
    ∃ vars, vars ≠ [] ∧
      makePodEnv parse inp.cfg.environment (buildContext inp.reldata inp.relations).1 =
        .ok (.missing vars) := by
  simp only [configureWorkload] at h
  cases hg : getGunicornPebbleConfig parse inp.cfg (buildContext inp.reldata inp.relations).1 with
  | error e2 => rw [hg] at h; simp at h
  | ok step =>
    rw [hg] at h
    simp only [] at h
    have hstep : step.deferred = true := by
      cases hl : step.layer with
      | none =>
        rw [hl] at h
        simp only [Except.ok.injEq] at h
        rw [← h] at hd
        exact hd
      | some layer =>
        rw [hl] at h
        by_cases hc : inp.canConnect
        · by_cases hr : inp.replanFails
          · simp only [hc, hr, Bool.not_true, Bool.false_eq_true, if_false, if_true,
              Except.ok.injEq] at h
            rw [← h] at hd
            exact hd
          · simp only [hc, hr, Bool.not_true, Bool.false_eq_true, if_false,
              Except.ok.injEq] at h
            rw [← h] at hd
            exact hd
        · simp only [hc, Bool.not_false, if_true, Except.ok.injEq] at h
          rw [← h] at hd
          exact hd
    exact pebbleStep_deferred_inv parse inp.cfg _ step hg hstep

/-- C1 counterexample: with the persisted special-cased state populating
`pg.db_uri = "special"` and the chosen unit's raw relation data carrying
`db_uri = "raw"`, the built context holds the raw value: the loop
`ctx[rel.name][key] = value` in `_get_context_from_relations` overwrites
the special-cased value, contradicting the claim that the special-cased
value is kept. -/
theorem c1_counterexample :
    alGet? ((buildContext [("pg", [("db_uri", .str "special")])]
        [("pg", [⟨0, [("postgresql/0", [("db_uri", "raw")])]⟩])]).1) "pg"
      = some [("db_uri", Val.str "raw")]
    ∧ Val.str "raw" ≠ Val.str "special" := by
  refine ⟨rfl, fun h => ?_⟩
  injection h with h2
  exact absurd h2 (by decide)

/-- C1 (amended): when the special-cased state and the chosen unit's raw
relation data populate the same namespace, the output namespace is their
merge holding the union of their keys, and for a key present in both the
raw relation value overwrites the special-cased one (keys absent from the
raw data keep their special-cased value). -/
theorem c1_shared_key_raw_wins (name : String) (special : Dict) (rid : Nat)
    (un : String) (raw : List (String × String)) (k : String)
    (hs : special ≠ []) (hnd : (raw.map Prod.fst).Nodup) :
    (buildContext [(name, special)] [(name, [⟨rid, [(un, raw)]⟩])]).1
      = [(name, mergeRaw special raw)]
    ∧ alGet? (mergeRaw special raw) k =
        (match raw.lookup k with
         | some v => some (.str v)
         | none => alGet? special k)
    ∧ ((alGet? (mergeRaw special raw) k).isSome = true ↔
        (k ∈ raw.map Prod.fst ∨ (alGet? special k).isSome = true)) := by
  refine ⟨?_, alGet?_mergeRaw special raw k hnd, ?_⟩
  · simp [buildContext, specialCtx, processRelation, sortUnitsByName, sortByKey,
          insertByKey, alSet, alGet?, list_isEmpty_false_of_ne_nil special hs]
  · rw [alGet?_mergeRaw special raw k hnd]
    cases hl : raw.lookup k with
    | some v =>
      have hmem : k ∈ raw.map Prod.fst :=
        (lookup_isSome_iff_mem_fst raw k).mp (by rw [hl]; rfl)
      simp [hmem]
    | none =>
      have hnm : k ∉ raw.map Prod.fst := by
        intro hmem
        have := (lookup_isSome_iff_mem_fst raw k).mpr hmem
        rw [hl] at this
        exact absurd this (by simp)
      simp [hnm]

/-- C1 witness: the amended statement at the counterexample's input. -/
theorem c1_witness :
    (([("db_uri", Val.str "special")] : Dict) ≠ []
      ∧ (([("db_uri", "raw")] : List (String × String)).map Prod.fst).Nodup)
    ∧ ((buildContext [("pg", [("db_uri", Val.str "special")])]
          [("pg", [⟨0, [("postgresql/0", [("db_uri", "raw")])]⟩])]).1
        = [("pg", mergeRaw [("db_uri", Val.str "special")] [("db_uri", "raw")])]
      ∧ alGet? (mergeRaw [("db_uri", Val.str "special")] [("db_uri", "raw")]) "db_uri" =
          (match ([("db_uri", "raw")] : List (String × String)).lookup "db_uri" with
           | some v => some (.str v)
           | none => alGet? [("db_uri", Val.str "special")] "db_uri")
      ∧ ((alGet? (mergeRaw [("db_uri", Val.str "special")] [("db_uri", "raw")]) "db_uri").isSome
            = true ↔
          ("db_uri" ∈ ([("db_uri", "raw")] : List (String × String)).map Prod.fst ∨
            (alGet? [("db_uri", Val.str "special")] "db_uri").isSome = true))) :=
  ⟨⟨by simp, by decide⟩,
   c1_shared_key_raw_wins "pg" [("db_uri", Val.str "special")] 0 "postgresql/0"
     [("db_uri", "raw")] "db_uri" (by simp) (by decide)⟩

/-- C2 counterexample: the template references `pg.db_uri`; the context has
a truthy `pg` namespace that lacks `db_uri`.  `_make_pod_env` computes an
empty missing set (it checks only the top-level name `pg`), renders the
template with the unresolved path substituted as the empty string
(partial output `"DB: "`), and returns a parsed environment
(`yaml.safe_load "DB: "` is `\x7b"DB": None\x7d`, which the parse argument
models) — contradicting the claim that the missing-namespace set is
returned and no partial output is produced. -/
theorem c2_counterexample :
    missingVariables [Piece.lit "DB: ", Piece.var "pg" ["db_uri"]]
        [("pg", [("conn_str", Val.str "x")])] = []
    ∧ makePodEnv (fun _ => .ok (.vdict [("DB", Val.vnone)]))
        [Piece.lit "DB: ", Piece.var "pg" ["db_uri"]]
        [("pg", [("conn_str", Val.str "x")])]
      = .ok (.env [("DB", Val.vnone)])
    ∧ renderTemplate [Piece.lit "DB: ", Piece.var "pg" ["db_uri"]]
        [("pg", [("conn_str", Val.str "x")])] = "DB: " :=
  ⟨rfl, rfl, rfl⟩

/-- C2 (amended): the missing-variable check of `_make_pod_env` covers only
the top-level namespace name of each referenced variable, not the full
dotted path: the returned missing set is exactly the referenced top-level
names whose context entry is absent or empty, a `missing` result is
produced exactly when that set is non-empty (and then nothing is
rendered), and when every referenced top-level name is truthy no missing
set is returned even if a deeper `ns.field` path is absent. -/
theorem c2_missing_check_top_level (parse : String → YamlOutcome) (env : Template)
    (ctx : Ctx) (hne : env ≠ []) :
    (∀ vars, makePodEnv parse env ctx = .ok (.missing vars) →
        vars = missingVariables env ctx)
    ∧ (missingVariables env ctx ≠ [] →
        makePodEnv parse env ctx = .ok (.missing (missingVariables env ctx)))
    ∧ (missingVariables env ctx = [] →
        ∀ vars, makePodEnv parse env ctx ≠ .ok (.missing vars)) := by
  refine ⟨fun vars h => (makePodEnv_missing_inv parse env ctx vars h).1,
          fun hm => makePodEnv_missing_eq parse env ctx hne hm,
          fun hm vars h => ?_⟩
  rcases makePodEnv_missing_inv parse env ctx vars h with ⟨hv, hnn⟩
  rw [hv, hm] at hnn
  exact hnn rfl

/-- C2 witness: the amended statement at a concrete input (a template
referencing `pg.db_uri` against the empty context). -/
theorem c2_witness :
    (([Piece.var "pg" ["db_uri"]] : Template) ≠ [])
    ∧ ((∀ vars, makePodEnv (fun _ => .scannerError) [Piece.var "pg" ["db_uri"]] []
            = .ok (.missing vars) →
          vars = missingVariables [Piece.var "pg" ["db_uri"]] [])
      ∧ (missingVariables [Piece.var "pg" ["db_uri"]] [] ≠ [] →
          makePodEnv (fun _ => .scannerError) [Piece.var "pg" ["db_uri"]] []
            = .ok (.missing (missingVariables [Piece.var "pg" ["db_uri"]] [])))
      ∧ (missingVariables [Piece.var "pg" ["db_uri"]] [] = [] →
          ∀ vars, makePodEnv (fun _ => .scannerError) [Piece.var "pg" ["db_uri"]] []
            ≠ .ok (.missing vars))) :=
  ⟨by decide,
   c2_missing_check_top_level (fun _ => .scannerError) [Piece.var "pg" ["db_uri"]] []
     (by decide)⟩

/-- C3 counterexample: with config option `external_hostname` empty, the
charm does not block: `_get_external_hostname` falls back to the app name
and a reconciliation with otherwise happy inputs (empty `environment`
template, pebble reachable, replan succeeding) ends Active, with the app
name pushed to the ingress — contradicting the claim that a missing
`external_hostname` yields a Blocked status naming it. -/
theorem c3_counterexample :
    getExternalHostname ⟨"", 80, "/srv/gunicorn/run", []⟩ "gunicorn-k8s" = "gunicorn-k8s"
    ∧ configureWorkload (fun _ => .scannerError)
        ⟨"gunicorn-k8s", ⟨"", 80, "/srv/gunicorn/run", []⟩, [], [], true, false⟩
      = .ok ⟨some .active, false, some ("gunicorn-k8s", 80),
             ["gunicorn", "statsd-prometheus-exporter"], true⟩ :=
  ⟨rfl, rfl⟩

/-- C3 (amended): an empty `external_hostname` is not an error:
`_get_external_hostname` returns the application name instead, and any
reconciliation outcome that reaches the ingress update pushes the app
name (never a Blocked status about the option). -/
theorem c3_empty_hostname_defaults (cfg : Config) (appName : String)
    (h : cfg.external_hostname = "") :
    getExternalHostname cfg appName = appName
    ∧ ∀ (parse : String → YamlOutcome) (inp : ReconcileInputs) (e : Effects),
        inp.cfg = cfg → inp.appName = appName → configureWorkload parse inp = .ok e →
        e.ingressUpdated = none ∨ e.ingressUpdated = some (appName, cfg.external_port) := by
  constructor
  · simp [getExternalHostname, h]
  · intro parse inp e hcfg happ hw
    have hh : getExternalHostname inp.cfg inp.appName = appName := by
      rw [hcfg, happ]
      simp [getExternalHostname, h]
    simp only [configureWorkload] at hw
    cases hg : getGunicornPebbleConfig parse inp.cfg
        (buildContext inp.reldata inp.relations).1 with
    | error e2 =>
      rw [hg] at hw
      simp at hw
    | ok step =>
      rw [hg] at hw
      simp only [] at hw
      cases hl : step.layer with
      | none =>
        rw [hl] at hw
        simp only [Except.ok.injEq] at hw
        rw [← hw]
        exact Or.inl rfl
      | some layer =>
        rw [hl] at hw
        right
        by_cases hc : inp.canConnect
        · by_cases hr : inp.replanFails
          · simp only [hc, hr, Bool.not_true, Bool.false_eq_true, if_false, if_true,
              Except.ok.injEq] at hw
            rw [← hw]
            simp [hcfg, happ, getExternalHostname, h]
          · simp only [hc, hr, Bool.not_true, Bool.false_eq_true, if_false,
              Except.ok.injEq] at hw
            rw [← hw]
            simp [hcfg, happ, getExternalHostname, h]
        · simp only [hc, Bool.not_false, if_true, Except.ok.injEq] at hw
          rw [← hw]
          simp [hcfg, happ, getExternalHostname, h]

/-- C3 witness: the amended statement at a concrete empty-hostname config. -/
theorem c3_witness :
    (⟨"", 80, "/srv/gunicorn/run", []⟩ : Config).external_hostname = ""
    ∧ (getExternalHostname ⟨"", 80, "/srv/gunicorn/run", []⟩ "myapp" = "myapp"
      ∧ ∀ (parse : String → YamlOutcome) (inp : ReconcileInputs) (e : Effects),
          inp.cfg = ⟨"", 80, "/srv/gunicorn/run", []⟩ → inp.appName = "myapp" →
          configureWorkload parse inp = .ok e →
          e.ingressUpdated = none ∨
            e.ingressUpdated = some ("myapp",
              (⟨"", 80, "/srv/gunicorn/run", []⟩ : Config).external_port)) :=
  ⟨rfl, c3_empty_hostname_defaults ⟨"", 80, "/srv/gunicorn/run", []⟩ "myapp" rfl⟩

/-- C4 counterexample: a rendered environment whose YAML parse fails with an
exception other than `yaml.scanner.ScannerError` — e.g. `a: [`, on which
`yaml.safe_load` raises `yaml.parser.ParserError`, here modelled by the
parse argument returning `otherError` — makes the reconciliation raise an
uncaught exception instead of setting the Blocked malformed-config
status: `_validate_yaml` catches only `ScannerError`.  This contradicts
the claim for configurations whose rendered template fails parsing in
general. -/
theorem c4_counterexample :
    configureWorkload (fun _ => .otherError)
        ⟨"gunicorn-k8s", ⟨"example.com", 80, "/srv/gunicorn/run", [.lit "a: ["]⟩,
         [], [], true, false⟩
      = .error ()
    ∧ ∀ e, configureWorkload (fun _ => .otherError)
        ⟨"gunicorn-k8s", ⟨"example.com", 80, "/srv/gunicorn/run", [.lit "a: ["]⟩,
         [], [], true, false⟩
      ≠ .ok e :=
  ⟨rfl, fun _ h => Except.noConfusion h⟩

/-- C4 (amended): for every configuration whose rendered `environment`
template fails YAML scanning (`yaml.scanner.ScannerError`) or parses to a
non-mapping, `Reconcile` sets Blocked "Error getting pod_env_config",
submits no layer, updates no ingress, and does not defer — independently
of relation state.  Parse failures outside `ScannerError`
(e.g. `ParserError`) instead propagate as uncaught exceptions. -/
theorem c4_malformed_blocked (parse : String → YamlOutcome) (inp : ReconcileInputs)
    (hne : inp.cfg.environment ≠ [])
    (hmiss : missingVariables inp.cfg.environment
        (buildContext inp.reldata inp.relations).1 = [])
    (hp : parse (renderTemplate inp.cfg.environment
            (buildContext inp.reldata inp.relations).1) = .scannerError ∨
          ∃ v, parse (renderTemplate inp.cfg.environment
            (buildContext inp.reldata inp.relations).1) = .ok v ∧ v.isDict = false) :
    configureWorkload parse inp =
      .ok ⟨some (.blocked "Error getting pod_env_config"), false, none, [], false⟩ := by
  have hm := makePodEnv_malformed_eq parse inp.cfg.environment
    (buildContext inp.reldata inp.relations).1 hne hmiss hp
  simp [configureWorkload, getGunicornPebbleConfig, hm]

/-- C4 witness: the amended statement at the spec's concrete scenario
`environment = "a: :"` (a `ScannerError` input), with empty relation
state. -/
theorem c4_witness :
    ((⟨"gunicorn-k8s", ⟨"example.com", 80, "/srv/gunicorn/run", [.lit "a: :"]⟩,
        [], [], true, false⟩ : ReconcileInputs).cfg.environment ≠ []
      ∧ missingVariables [Piece.lit "a: :"] (buildContext [] []).1 = []
      ∧ ((fun (_ : String) => YamlOutcome.scannerError)
            (renderTemplate [Piece.lit "a: :"] (buildContext [] []).1) = .scannerError ∨
          ∃ v, (fun (_ : String) => YamlOutcome.scannerError)
            (renderTemplate [Piece.lit "a: :"] (buildContext [] []).1) = .ok v ∧
            v.isDict = false))
    ∧ configureWorkload (fun _ => .scannerError)
        ⟨"gunicorn-k8s", ⟨"example.com", 80, "/srv/gunicorn/run", [.lit "a: :"]⟩,
         [], [], true, false⟩
      = .ok ⟨some (.blocked "Error getting pod_env_config"), false, none, [], false⟩ :=
  ⟨⟨by decide, rfl, Or.inl rfl⟩,
   c4_malformed_blocked (fun _ => .scannerError)
     ⟨"gunicorn-k8s", ⟨"example.com", 80, "/srv/gunicorn/run", [.lit "a: :"]⟩,
      [], [], true, false⟩
     (by decide) rfl (Or.inl rfl)⟩

/-- C5: when the `environment` template references variables whose
namespaces are missing from the built context, `Reconcile` sets Blocked
"Waiting for ... relation(s)" with the missing names sorted ascending
(`", ".join(sorted(missing))`), defers the event, submits no layer and
touches no ingress; and across all inputs, a deferred event implies the
missing-variables result of `_make_pod_env` — the missing-variable path
is the only deferring path of the reconcile function. -/
theorem c5_missing_vars_block_defer (parse : String → YamlOutcome) (inp : ReconcileInputs)
    (hne : inp.cfg.environment ≠ [])
    (hmiss : missingVariables inp.cfg.environment
        (buildContext inp.reldata inp.relations).1 ≠ []) :
    configureWorkload parse inp =
      .ok ⟨some (.blocked (waitingMessage
            (missingVariables inp.cfg.environment (buildContext inp.reldata inp.relations).1))),
           true, none, [], false⟩
    ∧ (pySorted (missingVariables inp.cfg.environment
          (buildContext inp.reldata inp.relations).1)).Sorted (· ≤ ·)
    ∧ (∀ s, s ∈ pySorted (missingVariables inp.cfg.environment
          (buildContext inp.reldata inp.relations).1) ↔
        s ∈ missingVariables inp.cfg.environment (buildContext inp.reldata inp.relations).1)
    ∧ (∀ (parse2 : String → YamlOutcome) (inp2 : ReconcileInputs) (e : Effects),
        configureWorkload parse2 inp2 = .ok e → e.deferred = true →
        ∃ vars, vars ≠ [] ∧
          makePodEnv parse2 inp2.cfg.environment
              (buildContext inp2.reldata inp2.relations).1 = .ok (.missing vars)) := by
  refine ⟨?_, sorted_pySorted _, fun s => mem_pySorted s _,
          fun parse2 inp2 e => configureWorkload_deferred_inv parse2 inp2 e⟩
  have hm := makePodEnv_missing_eq parse inp.cfg.environment
    (buildContext inp.reldata inp.relations).1 hne hmiss
  simp [configureWorkload, getGunicornPebbleConfig, hm]

/-- C5 witness: the statement at the spec's end-to-end scenario
`environment = "DB: \x7b\x7bpg.db_uri\x7d\x7d"` with no `pg` relation
state: Blocked "Waiting for pg relation(s)" and a deferred event. -/
theorem c5_witness :
    ((⟨"gunicorn-k8s", ⟨"example.com", 80, "/srv/gunicorn/run",
          [.lit "DB: ", .var "pg" ["db_uri"]]⟩, [], [], true, false⟩ :
        ReconcileInputs).cfg.environment ≠ []
      ∧ missingVariables [Piece.lit "DB: ", Piece.var "pg" ["db_uri"]]
          (buildContext [] []).1 ≠ [])
    ∧ configureWorkload (fun _ => .scannerError)
        ⟨"gunicorn-k8s", ⟨"example.com", 80, "/srv/gunicorn/run",
          [.lit "DB: ", .var "pg" ["db_uri"]]⟩, [], [], true, false⟩
      = .ok ⟨some (.blocked "Waiting for pg relation(s)"), true, none, [], false⟩ :=
  ⟨⟨by decide, by decide⟩,
   (c5_missing_vars_block_defer (fun _ => .scannerError)
     ⟨"gunicorn-k8s", ⟨"example.com", 80, "/srv/gunicorn/run",
       [.lit "DB: ", .var "pg" ["db_uri"]]⟩, [], [], true, false⟩
     (by decide) (by decide)).1⟩

theorem dictMapEq_update_self (d f : Dict) :
    dictMapEq (dictUpdate d f) (dictUpdate (dictUpdate d f) f) = true := by
  apply dictMapEq_of_getEq
  intro k
  rw [alGet?_dictUpdate, alGet?_dictUpdate, alGet?_dictUpdate]
  cases lookupLast f k <;> simp

/-- C6 counterexample: a duplicate pgsql `master_changed` delivery carrying
exactly the data already persisted leaves the stored state unchanged yet
still re-triggers reconciliation: `_on_master_changed` calls
`_on_config_changed` whenever `event.master` is set and the database
matches, with no change-detection guard — contradicting the claim that
every credential-bearing handler reconciles only when the persisted state
actually changed. -/
theorem c6_counterexample :
    onMasterChanged "gunicorn-k8s"
        [("pg", [("conn_str", .str "c"), ("db_uri", .str "u")])]
        (some "gunicorn-k8s") (some ⟨"c", "u"⟩)
      = ⟨[("pg", [("conn_str", Val.str "c"), ("db_uri", Val.str "u")])], true, false⟩ :=
  rfl

/-- C6 (amended): the change-detection guard exists only on the mongodb
handler: a second delivery of identical mongodb relation data does not
re-trigger reconciliation, while the pg `master_changed` handler
re-triggers reconciliation exactly when the database matches the app name
and a master is present, regardless of whether the persisted state
changed. -/
theorem c6_change_guard_mongodb_only (reldata rd2 : List (String × Dict)) (fetched : Dict)
    (app : String) (db : Option String) (m : Option MasterInfo) :
    (mongodbClientRelationChanged
        (mongodbClientRelationChanged reldata fetched).reldata fetched).reconciled = false
    ∧ ((onMasterChanged app rd2 db m).reconciled = true ↔
        (db = some app ∧ m.isSome = true)) := by
  constructor
  · have key : ∀ (rd0 : List (String × Dict)),
        (mongodbClientRelationChanged
          (alSet rd0 "mongodb" (dictUpdate ((alGet? rd0 "mongodb").getD []) fetched))
          fetched).reconciled = false := by
      intro rd0
      have hX : alGet? (alSet rd0 "mongodb"
            (dictUpdate ((alGet? rd0 "mongodb").getD []) fetched)) "mongodb"
          = some (dictUpdate ((alGet? rd0 "mongodb").getD []) fetched) := by
        rw [alGet?_alSet]
        simp
      unfold mongodbClientRelationChanged
      simp only [hX, Option.isSome_some, if_true, Option.getD_some]
      rw [dictMapEq_update_self]
      rfl
    exact key _
  · by_cases hdb : db = some app
    · cases m with
      | none => simp [onMasterChanged, hdb]
      | some mi => simp [onMasterChanged, hdb]
    · simp [onMasterChanged, hdb]

/-- C7: `_get_context_from_relations` folds over the relation names; for a
relation name with at least one instance it uses only the first instance
`rels[0]` (recording a `multipleRelations` warning naming it when more
than one exists), and within that instance selects the unit whose name is
lexicographically smallest (recording a `multipleUnits` warning naming
the selected unit when more than one publishes data), merging exactly
that unit's key-value pairs into the namespace. -/
theorem c7_first_instance_smallest_unit (ctx : Ctx) (ws : List Warning) (name : String)
    (rel : RelInstance) (rest : List RelInstance)
    (u : String × List (String × String)) (urest : List (String × List (String × String)))
    (hu : sortUnitsByName rel.units = u :: urest) :
    (∀ (rd : List (String × Dict)) (rels : List (String × List RelInstance)),
        buildContext rd rels = rels.foldl processRelation (specialCtx rd, []))
    ∧ processRelation (ctx, ws) (name, rel :: rest)
        = (alSet ctx name (mergeRaw ((alGet? ctx name).getD []) u.2),
           (if rest.isEmpty then ws else ws ++ [.multipleRelations name rel.id])
             ++ (if urest.isEmpty then [] else [.multipleUnits name rel.id u.1]))
    ∧ u ∈ rel.units
    ∧ (∀ w ∈ rel.units, u.1 ≤ w.1) := by
  obtain ⟨hmem, hmin⟩ := sortUnitsByName_head_min rel.units u urest hu
  refine ⟨fun rd rels => rfl, ?_, hmem, hmin⟩
  unfold processRelation
  simp only []
  rw [hu]
  by_cases hr : rest.isEmpty <;> by_cases hur : urest.isEmpty <;> simp [hr, hur]

/-- C7 witness: the spec's concrete tie-break scenario: relation `myrel`
with units `myapp/0` (`thing: bli`) and `myapp/1` (`thing: blo`):
`myapp/0` is selected and the `multipleUnits` warning names it. -/
theorem c7_witness :
    sortUnitsByName [("myapp/0", [("thing", "bli")]), ("myapp/1", [("thing", "blo")])]
      = ("myapp/0", [("thing", "bli")]) :: [("myapp/1", [("thing", "blo")])]
    ∧ ((∀ (rd : List (String × Dict)) (rels : List (String × List RelInstance)),
          buildContext rd rels = rels.foldl processRelation (specialCtx rd, []))
      ∧ processRelation (([] : Ctx), ([] : List Warning))
          ("myrel", [⟨1, [("myapp/0", [("thing", "bli")]), ("myapp/1", [("thing", "blo")])]⟩])
          = (alSet ([] : Ctx) "myrel"
               (mergeRaw ((alGet? ([] : Ctx) "myrel").getD []) [("thing", "bli")]),
             (if ([] : List RelInstance).isEmpty then ([] : List Warning)
              else [] ++ [.multipleRelations "myrel" 1])
               ++ (if ([("myapp/1", [("thing", "blo")])] :
                      List (String × List (String × String))).isEmpty then []
                   else [.multipleUnits "myrel" 1 "myapp/0"]))
      ∧ ("myapp/0", [("thing", "bli")])
          ∈ [("myapp/0", [("thing", "bli")]), ("myapp/1", [("thing", "blo")])]
      ∧ (∀ w ∈ [("myapp/0", [("thing", "bli")]), ("myapp/1", [("thing", "blo")])],
          ("myapp/0", [("thing", "bli")]).1 ≤ w.1)) :=
  ⟨rfl,
   c7_first_instance_smallest_unit [] [] "myrel"
     ⟨1, [("myapp/0", [("thing", "bli")]), ("myapp/1", [("thing", "blo")])]⟩ []
     ("myapp/0", [("thing", "bli")]) [("myapp/1", [("thing", "blo")])] rfl⟩

/-- C8 counterexample: a `master_changed` event with matching database but
`master = None` (nothing provisioned) writes `conn_str = None` and
`db_uri = None` into the persisted `pg` dict; that dict is then non-empty
(truthy), so `_get_context_from_relations` keeps the `pg` namespace in
the built context — it is present although nothing was ever provisioned,
and it is not cleared, contradicting the claimed invariant. -/
theorem c8_counterexample :
    (onMasterChanged "gunicorn-k8s" [("pg", [])] (some "gunicorn-k8s") none).reldata
      = [("pg", [("conn_str", Val.vnone), ("db_uri", Val.vnone)])]
    ∧ alGet? ((buildContext
        (onMasterChanged "gunicorn-k8s" [("pg", [])] (some "gunicorn-k8s") none).reldata
        []).1) "pg"
      = some [("conn_str", Val.vnone), ("db_uri", Val.vnone)]
    ∧ truthyCtxGet ((buildContext
        (onMasterChanged "gunicorn-k8s" [("pg", [])] (some "gunicorn-k8s") none).reldata
        []).1) "pg" = true :=
  ⟨rfl, rfl, rfl⟩

/-- C8 (amended): after any `master_changed` event whose database matches
the app name — including one reporting `master = None` — the persisted
`pg` dict holds `conn_str` and `db_uri` keys (set to `None` when no
master is provisioned), is therefore non-empty, and the `pg` namespace is
present in every subsequently built context; revocation nulls the fields
but does not remove the namespace from the context. -/
theorem c8_pg_entry_persists (app : String) (reldata : List (String × Dict))
    (m : Option MasterInfo) (relations : List (String × List RelInstance))
    (hnd : (reldata.map Prod.fst).Nodup) :
    alGet? ((alGet? (onMasterChanged app reldata (some app) m).reldata "pg").getD [])
        "conn_str"
      = some (match m with | none => Val.vnone | some mi => Val.str mi.conn_str)
    ∧ alGet? ((alGet? (onMasterChanged app reldata (some app) m).reldata "pg").getD [])
        "db_uri"
      = some (match m with | none => Val.vnone | some mi => Val.str mi.uri)
    ∧ (alGet? (onMasterChanged app reldata (some app) m).reldata "pg").getD [] ≠ []
    ∧ (alGet? ((buildContext (onMasterChanged app reldata (some app) m).reldata
        relations).1) "pg").isSome = true := by
  have key : ∀ (x y : Val),
      alGet? ((alGet? (alSet reldata "pg"
          (alSet (alSet ((alGet? reldata "pg").getD []) "conn_str" x) "db_uri" y))
          "pg").getD []) "conn_str" = some x
      ∧ alGet? ((alGet? (alSet reldata "pg"
          (alSet (alSet ((alGet? reldata "pg").getD []) "conn_str" x) "db_uri" y))
          "pg").getD []) "db_uri" = some y
      ∧ (alGet? (alSet reldata "pg"
          (alSet (alSet ((alGet? reldata "pg").getD []) "conn_str" x) "db_uri" y))
          "pg").getD [] ≠ []
      ∧ (alGet? ((buildContext (alSet reldata "pg"
          (alSet (alSet ((alGet? reldata "pg").getD []) "conn_str" x) "db_uri" y))
          relations).1) "pg").isSome = true := by
    intro x y
    have hpg : alGet? (alSet reldata "pg"
        (alSet (alSet ((alGet? reldata "pg").getD []) "conn_str" x) "db_uri" y)) "pg"
        = some (alSet (alSet ((alGet? reldata "pg").getD []) "conn_str" x) "db_uri" y) := by
      rw [alGet?_alSet, if_pos rfl]
    refine ⟨?_, ?_, ?_, ?_⟩
    · rw [hpg]
      simp only [Option.getD_some]
      rw [alGet?_alSet, if_neg (by decide : ¬ ("db_uri" = "conn_str")),
          alGet?_alSet, if_pos rfl]
    · rw [hpg]
      simp only [Option.getD_some]
      rw [alGet?_alSet, if_pos rfl]
    · rw [hpg]
      simp only [Option.getD_some]
      exact alSet_ne_nil _ _ _
    · have hnd2 : ((alSet reldata "pg"
          (alSet (alSet ((alGet? reldata "pg").getD []) "conn_str" x) "db_uri" y)).map
            Prod.fst).Nodup :=
        nodup_map_fst_alSet reldata "pg" _ hnd
      have hsp := specialCtx_get_of_ne_nil _ "pg" _ hnd2 hpg (alSet_ne_nil _ _ _)
      have hss : (alGet? (specialCtx (alSet reldata "pg"
          (alSet (alSet ((alGet? reldata "pg").getD []) "conn_str" x) "db_uri" y)))
          "pg").isSome = true := by
        rw [hsp]
        rfl
      exact foldl_processRelation_mono relations _ "pg" hss
  cases m with
  | none =>
    have hrd : (onMasterChanged app reldata (some app) none).reldata
        = alSet reldata "pg"
            (alSet (alSet ((alGet? reldata "pg").getD []) "conn_str" Val.vnone)
              "db_uri" Val.vnone) := by
      simp [onMasterChanged]
    rw [hrd]
    exact key Val.vnone Val.vnone
  | some mi =>
    have hrd : (onMasterChanged app reldata (some app) (some mi)).reldata
        = alSet reldata "pg"
            (alSet (alSet ((alGet? reldata "pg").getD []) "conn_str"
                (Val.str mi.conn_str)) "db_uri" (Val.str mi.uri)) := by
      simp [onMasterChanged]
    rw [hrd]
    exact key (Val.str mi.conn_str) (Val.str mi.uri)

/-- C8 witness: the amended statement at the counterexample's input
(`master = None` against a fresh `pg` store). -/
theorem c8_witness :
    (([("pg", [])] : List (String × Dict)).map Prod.fst).Nodup
    ∧ (alGet? ((alGet? (onMasterChanged "gunicorn-k8s" [("pg", [])]
          (some "gunicorn-k8s") none).reldata "pg").getD []) "conn_str"
        = some (match (none : Option MasterInfo) with
                | none => Val.vnone
                | some mi => Val.str mi.conn_str)
      ∧ alGet? ((alGet? (onMasterChanged "gunicorn-k8s" [("pg", [])]
          (some "gunicorn-k8s") none).reldata "pg").getD []) "db_uri"
        = some (match (none : Option MasterInfo) with
                | none => Val.vnone
                | some mi => Val.str mi.uri)
      ∧ (alGet? (onMasterChanged "gunicorn-k8s" [("pg", [])]
          (some "gunicorn-k8s") none).reldata "pg").getD [] ≠ []
      ∧ (alGet? ((buildContext (onMasterChanged "gunicorn-k8s" [("pg", [])]
          (some "gunicorn-k8s") none).reldata []).1) "pg").isSome = true) :=
  ⟨by decide,
   c8_pg_entry_persists "gunicorn-k8s" [("pg", [])] none [] (by decide)⟩

/-- C9: the show-environment-context action returns exactly the JSON
(indent 4) serialization of the dotted-path keys of the flattened built
context, sorted: the serialized list is ascending and contains precisely
the keys `_flatten_dict` produces from the context. -/
theorem c9_action_sorted_dotted_paths (reldata : List (String × Dict))
    (relations : List (String × List RelInstance)) :
    showEnvironmentContextAction reldata relations
      = jsonDumpsIndent4 (pySorted
          ((flattenDict (ctxToDict (buildContext reldata relations).1) "" ".").map Prod.fst))
    ∧ (pySorted ((flattenDict (ctxToDict (buildContext reldata relations).1) "" ".").map
          Prod.fst)).Sorted (· ≤ ·)
    ∧ (∀ s, s ∈ pySorted ((flattenDict (ctxToDict (buildContext reldata relations).1)
          "" ".").map Prod.fst) ↔
        s ∈ (flattenDict (ctxToDict (buildContext reldata relations).1) "" ".").map
          Prod.fst) :=
  ⟨rfl, sorted_pySorted _, fun s => mem_pySorted s _⟩

/-- C10: a `standby_changed` event with matching database writes only the
`ro_uris` field of the persisted `pg` state and returns: it triggers no
reconciliation and no deferral (hence sets no status and submits no
layer), the other `pg` fields are unchanged, and the other namespaces of
the store are unchanged. -/
theorem c10_standby_writes_only_ro_uris (app : String) (reldata : List (String × Dict))
    (standbys : List String) (db : Option String) (hdb : db = some app) :
    (onStandbyChanged app reldata db standbys).reconciled = false
    ∧ (onStandbyChanged app reldata db standbys).deferred = false
    ∧ alGet? ((alGet? (onStandbyChanged app reldata db standbys).reldata "pg").getD [])
        "ro_uris"
      = some (.vlist (standbys.map .str))
    ∧ (∀ k, k ≠ "ro_uris" →
        alGet? ((alGet? (onStandbyChanged app reldata db standbys).reldata "pg").getD []) k
          = alGet? ((alGet? reldata "pg").getD []) k)
    ∧ (∀ n, n ≠ "pg" →
        alGet? (onStandbyChanged app reldata db standbys).reldata n = alGet? reldata n) := by
  subst hdb
  have hrd : (onStandbyChanged app reldata (some app) standbys).reldata
      = alSet reldata "pg" (alSet ((alGet? reldata "pg").getD []) "ro_uris"
          (.vlist (standbys.map .str))) := by
    simp [onStandbyChanged]
  have hpg : alGet? (onStandbyChanged app reldata (some app) standbys).reldata "pg"
      = some (alSet ((alGet? reldata "pg").getD []) "ro_uris"
          (.vlist (standbys.map .str))) := by
    rw [hrd, alGet?_alSet, if_pos rfl]
  refine ⟨by simp [onStandbyChanged], by simp [onStandbyChanged], ?_, ?_, ?_⟩
  · rw [hpg]
    simp only [Option.getD_some]
    rw [alGet?_alSet, if_pos rfl]
  · intro k hk
    rw [hpg]
    simp only [Option.getD_some]
    rw [alGet?_alSet, if_neg (fun h => hk h.symm)]
  · intro n hn
    rw [hrd, alGet?_alSet, if_neg (fun h => hn h.symm)]

/-- C10 witness: the statement at a concrete matching event. -/
theorem c10_witness :
    (some "gunicorn-k8s" : Option String) = some "gunicorn-k8s"
    ∧ ((onStandbyChanged "gunicorn-k8s" [("pg", [("conn_str", Val.str "c")])]
          (some "gunicorn-k8s") ["u1"]).reconciled = false
      ∧ (onStandbyChanged "gunicorn-k8s" [("pg", [("conn_str", Val.str "c")])]
          (some "gunicorn-k8s") ["u1"]).deferred = false
      ∧ alGet? ((alGet? (onStandbyChanged "gunicorn-k8s"
            [("pg", [("conn_str", Val.str "c")])]
            (some "gunicorn-k8s") ["u1"]).reldata "pg").getD []) "ro_uris"
        = some (.vlist (["u1"].map .str))
      ∧ (∀ k, k ≠ "ro_uris" →
          alGet? ((alGet? (onStandbyChanged "gunicorn-k8s"
              [("pg", [("conn_str", Val.str "c")])]
              (some "gunicorn-k8s") ["u1"]).reldata "pg").getD []) k
            = alGet? ((alGet? ([("pg", [("conn_str", Val.str "c")])] :
                List (String × Dict)) "pg").getD []) k)
      ∧ (∀ n, n ≠ "pg" →
          alGet? (onStandbyChanged "gunicorn-k8s"
              [("pg", [("conn_str", Val.str "c")])]
              (some "gunicorn-k8s") ["u1"]).reldata n
            = alGet? ([("pg", [("conn_str", Val.str "c")])] :
                List (String × Dict)) n)) :=
  ⟨rfl,
   c10_standby_writes_only_ro_uris "gunicorn-k8s" [("pg", [("conn_str", Val.str "c")])]
     ["u1"] (some "gunicorn-k8s") rfl⟩

end Gunicorn
